import Mathlib

/-!
Verification of the simple bump (arena) allocator from `src/main.rs`.

The allocator owns a mutable view (`mem`) over a byte buffer and serves
allocation requests by skipping alignment padding, carving off bytes from
the front of the view, and writing the value's byte representation there.

Shallow embedding conventions:
* A Rust type `T` is modelled by `Ty`: its `size_of` and `align_of`.
* A value of `T` is modelled by its byte representation, a function
  `Nat → Nat` from byte index to byte; `core::ptr::write` writes exactly
  `size_of T` of those bytes (`reprBytes`).
* The allocator state `ArenaSt` records the base address of the original
  buffer, the full buffer contents, and the offset `off` of the remaining
  view (`self.mem` = `buf.drop off`, starting at address `base + off`).
* Methods taking `&mut self` and returning `AllocResult<A>` become
  functions `ArenaSt → ArenaSt × RustResult A`: the state is kept on the
  error path, exactly as an early `return Err` keeps `self`.
* `unwrap_unchecked` on an `Err` in `alloc_from_fn`'s loop is undefined
  behavior in Rust; the model records it deterministically by setting the
  `ub` flag and keeping the (untouched) state.
-/

/-- Model of a Rust type: its `core::mem::size_of` and `core::mem::align_of`. -/
structure Ty where
  size : Nat
  align : Nat
deriving DecidableEq, Repr

/-- `pub struct OutOfMemory;` — the single error kind. -/
inductive OutOfMemory where
  | mk
deriving DecidableEq, Repr

/-- Rust's `Result<A, OutOfMemory>` (`type AllocResult<T> = Result<T, OutOfMemory>`). -/
inductive RustResult (α : Type) where
  | ok (v : α)
  | err (e : OutOfMemory)
deriving DecidableEq, Repr

/-- Allocator state: `struct Alloc<'mem> { mem: &'mem mut [u8] }`.
`base` is the address of the original buffer, `buf` its current contents,
`off` how many front bytes are consumed (so `self.mem = buf.drop off`,
starting at address `base + off`), and `ub` records whether
`unwrap_unchecked` was ever hit on an `Err` (undefined behavior). -/
structure ArenaSt where
  base : Nat
  buf : List Nat
  off : Nat
  ub : Bool
deriving DecidableEq, Repr

/-- `self.mem.len()`: length of the remaining view. -/
def remLen (a : ArenaSt) : Nat := a.buf.length - a.off

/-- `self.mem.as_ptr() as usize`: start address of the remaining view. -/
def remStart (a : ArenaSt) : Nat := a.base + a.off

/-- The byte representation written by `core::ptr::write` for a value of `T`. -/
def reprBytes (T : Ty) (item : Nat → Nat) : List Nat :=
  (List.range T.size).map item

/-- Overwrite `bytes.length` bytes of `l` starting at position `pos`. -/
def writeBytes (l : List Nat) (pos : Nat) (bytes : List Nat) : List Nat :=
  l.take pos ++ bytes ++ l.drop (pos + bytes.length)

/-- `Alloc::new(heap)`: the remaining view is the whole buffer. -/
def Alloc.new (base : Nat) (heap : List Nat) : ArenaSt :=
  { base := base, buf := heap, off := 0, ub := false }

/-- `fn calc_waste_bytes<T>`: `self.mem.as_ptr() as usize % align_of::<T>()`. -/
def calc_waste_bytes (T : Ty) (a : ArenaSt) : Nat :=
  remStart a % T.align

/-- `fn alloc_mem(&mut self, size)`: split off the first `size` bytes of the
remaining view; returns the new state and the offset of the carved slice. -/
def alloc_mem (size : Nat) (a : ArenaSt) : ArenaSt × Nat :=
  ({ a with off := a.off + size }, a.off)

/-- `unsafe fn alloc_aligned<T>(&mut self, item)`: fail if the view is shorter
than `size_of T`, else carve `size_of T` bytes, `ptr::write` the item there
and return the address of the written value. -/
def alloc_aligned (T : Ty) (item : Nat → Nat) (a : ArenaSt) :
    ArenaSt × RustResult Nat :=
  let required_size := T.size
  if remLen a < required_size then (a, .err OutOfMemory.mk)
  else
    let p := alloc_mem required_size a
    ({ p.1 with buf := writeBytes p.1.buf p.2 (reprBytes T item) },
      .ok (a.base + p.2))

/-- `fn waste_mem<T>(&mut self)`: compute the padding, fail if the view is
shorter than it, else consume it and return the number of wasted bytes. -/
def waste_mem (T : Ty) (a : ArenaSt) : ArenaSt × RustResult Nat :=
  let waste_bytes := calc_waste_bytes T a
  if remLen a < waste_bytes then (a, .err OutOfMemory.mk)
  else ((alloc_mem waste_bytes a).1, .ok waste_bytes)

/-- `pub fn alloc<T>(&mut self, item)`: `self.waste_mem::<T>()?;` then
`self.alloc_aligned(item)`. Returns the (possibly mutated) state with the
result. -/
def alloc (T : Ty) (item : Nat → Nat) (a : ArenaSt) :
    ArenaSt × RustResult Nat :=
  match waste_mem T a with
  | (a1, .err e) => (a1, .err e)
  | (a1, .ok _) => alloc_aligned T item a1

/-- The `for i in 0..size` loop of `alloc_from_fn`: each iteration runs
`self.alloc_aligned(f(i)).unwrap_unchecked()`. Hitting `Err` there is
undefined behavior, modelled by setting the `ub` flag (the failing call
itself leaves the state untouched). -/
def from_fn_loop (T : Ty) (f : Nat → Nat → Nat) (i k : Nat) (a : ArenaSt) :
    ArenaSt :=
  match k with
  | 0 => a
  | k' + 1 =>
    match alloc_aligned T (f i) a with
    | (a1, .ok _) => from_fn_loop T f (i + 1) k' a1
    | (a1, .err _) => from_fn_loop T f (i + 1) k' { a1 with ub := true }

/-- `pub fn alloc_from_fn<T>(&mut self, size, f)`: waste the padding once,
remember the view start (`arr_ptr`), run the write loop, and return the
address and element count of the carved array. -/
def alloc_from_fn (T : Ty) (n : Nat) (f : Nat → Nat → Nat) (a : ArenaSt) :
    ArenaSt × RustResult (Nat × Nat) :=
  match waste_mem T a with
  | (a1, .err e) => (a1, .err e)
  | (a1, .ok _) =>
    let arr_addr := a1.base + a1.off
    (from_fn_loop T f 0 n a1, .ok (arr_addr, n))

/-- One caller-visible operation on the arena (the public API surface). -/
inductive Op where
  | single (T : Ty) (item : Nat → Nat)
  | fromFn (T : Ty) (n : Nat) (f : Nat → Nat → Nat)

/-- Run one operation, keeping only the state (success or failure). -/
def runOp (op : Op) (a : ArenaSt) : ArenaSt :=
  match op with
  | .single T item => (alloc T item a).1
  | .fromFn T n f => (alloc_from_fn T n f a).1

/-- Run a sequence of operations left to right. -/
def runOps (ops : List Op) (a : ArenaSt) : ArenaSt :=
  match ops with
  | [] => a
  | op :: rest => runOps rest (runOp op a)

/-- State after a sequence of single-value allocations. -/
def allocSeq (l : List (Ty × (Nat → Nat))) (a : ArenaSt) : ArenaSt :=
  match l with
  | [] => a
  | (T, it) :: rest => allocSeq rest (alloc T it a).1

/-- Whether every allocation in the sequence succeeds. -/
def allocSeqOk (l : List (Ty × (Nat → Nat))) (a : ArenaSt) : Bool :=
  match l with
  | [] => true
  | (T, it) :: rest =>
    (match (alloc T it a).2 with
     | .ok _ => true
     | .err _ => false) && allocSeqOk rest (alloc T it a).1

/-- Sum over the sequence of (that allocation's padding + its size). -/
def consumedSum (l : List (Ty × (Nat → Nat))) (a : ArenaSt) : Nat :=
  match l with
  | [] => 0
  | (T, it) :: rest =>
    (calc_waste_bytes T a + T.size) + consumedSum rest (alloc T it a).1

/-! ### Helper lemmas about byte lists -/

lemma reprBytes_length (T : Ty) (item : Nat → Nat) :
    (reprBytes T item).length = T.size := by
  simp [reprBytes]

lemma writeBytes_length (l bytes : List Nat) (pos : Nat)
    (h : bytes.length ≤ l.length - pos) :
    (writeBytes l pos bytes).length = l.length := by
  simp only [writeBytes, List.length_append, List.length_take, List.length_drop]
  omega

lemma take_length_of_le (l : List Nat) (pos : Nat) (h : pos ≤ l.length) :
    (l.take pos).length = pos := by
  simp [h]

lemma writeBytes_getElem_lt (l bytes : List Nat) (pos p : Nat)
    (hp : p < pos) (hpos : pos ≤ l.length) :
    (writeBytes l pos bytes)[p]? = l[p]? := by
  rw [writeBytes, List.append_assoc, List.getElem?_append,
    take_length_of_le l pos hpos, if_pos hp, List.getElem?_take, if_pos hp]

lemma writeBytes_readback (l bytes : List Nat) (pos : Nat)
    (hpos : pos ≤ l.length) :
    ((writeBytes l pos bytes).drop pos).take bytes.length = bytes := by
  rw [writeBytes, List.append_assoc,
    List.drop_left' (take_length_of_le l pos hpos), List.take_left' rfl]

lemma slice_eq_of_agree (l1 l2 : List Nat) (m s : Nat)
    (h : ∀ p, p < m + s → l1[p]? = l2[p]?) :
    (l1.drop m).take s = (l2.drop m).take s := by
  apply List.ext_getElem?
  intro i
  rw [List.getElem?_take, List.getElem?_take]
  by_cases hi : i < s
  · rw [if_pos hi, if_pos hi, List.getElem?_drop, List.getElem?_drop]
    exact h (m + i) (by omega)
  · rw [if_neg hi, if_neg hi]

/-! ### Characterizations of the allocator operations -/

lemma remLen_set_off (a : ArenaSt) (x : Nat) :
    remLen { a with off := x } = a.buf.length - x := rfl

lemma waste_mem_of_lt (T : Ty) (a : ArenaSt)
    (h : remLen a < calc_waste_bytes T a) :
    waste_mem T a = (a, .err OutOfMemory.mk) := by
  simp [waste_mem, h]

lemma waste_mem_of_ge (T : Ty) (a : ArenaSt)
    (h : ¬ remLen a < calc_waste_bytes T a) :
    waste_mem T a =
      ({ a with off := a.off + calc_waste_bytes T a }, .ok (calc_waste_bytes T a)) := by
  simp [waste_mem, alloc_mem, h]

lemma alloc_aligned_of_lt (T : Ty) (item : Nat → Nat) (a : ArenaSt)
    (h : remLen a < T.size) :
    alloc_aligned T item a = (a, .err OutOfMemory.mk) := by
  simp [alloc_aligned, h]

lemma alloc_aligned_of_ge (T : Ty) (item : Nat → Nat) (a : ArenaSt)
    (h : ¬ remLen a < T.size) :
    alloc_aligned T item a =
      ({ a with off := a.off + T.size,
                buf := writeBytes a.buf a.off (reprBytes T item) },
        .ok (a.base + a.off)) := by
  simp [alloc_aligned, alloc_mem, h]

lemma alloc_of_waste_lt (T : Ty) (item : Nat → Nat) (a : ArenaSt)
    (h : remLen a < calc_waste_bytes T a) :
    alloc T item a = (a, .err OutOfMemory.mk) := by
  unfold alloc
  rw [waste_mem_of_lt T a h]

lemma alloc_of_size_lt (T : Ty) (item : Nat → Nat) (a : ArenaSt)
    (h1 : ¬ remLen a < calc_waste_bytes T a)
    (h2 : remLen a - calc_waste_bytes T a < T.size) :
    alloc T item a =
      ({ a with off := a.off + calc_waste_bytes T a }, .err OutOfMemory.mk) := by
  unfold alloc
  rw [waste_mem_of_ge T a h1]
  exact alloc_aligned_of_lt T item _ (by simp only [remLen_set_off]; simp [remLen] at h2 ⊢; omega)

lemma alloc_of_ok (T : Ty) (item : Nat → Nat) (a : ArenaSt)
    (h1 : ¬ remLen a < calc_waste_bytes T a)
    (h2 : ¬ remLen a - calc_waste_bytes T a < T.size) :
    alloc T item a =
      ({ a with off := a.off + calc_waste_bytes T a + T.size,
                buf := writeBytes a.buf (a.off + calc_waste_bytes T a) (reprBytes T item) },
        .ok (a.base + (a.off + calc_waste_bytes T a))) := by
  unfold alloc
  rw [waste_mem_of_ge T a h1]
  exact alloc_aligned_of_ge T item _ (by simp only [remLen_set_off]; simp [remLen] at h2 ⊢; omega)

/-! ### Monotonicity of the cursor -/

lemma alloc_aligned_mono (T : Ty) (item : Nat → Nat) (a : ArenaSt) :
    (alloc_aligned T item a).1.base = a.base ∧
    (alloc_aligned T item a).1.buf.length = a.buf.length ∧
    a.off ≤ (alloc_aligned T item a).1.off ∧
    (alloc_aligned T item a).1.ub = a.ub := by
  by_cases h : remLen a < T.size
  · rw [alloc_aligned_of_lt T item a h]
    exact ⟨rfl, rfl, Nat.le_refl _, rfl⟩
  · rw [alloc_aligned_of_ge T item a h]
    refine ⟨rfl, ?_, by simp, rfl⟩
    simp only
    rw [writeBytes_length]
    rw [reprBytes_length]
    simp [remLen] at h
    omega

lemma from_fn_loop_mono (T : Ty) (f : Nat → Nat → Nat) :
    ∀ (k i : Nat) (a : ArenaSt),
      (from_fn_loop T f i k a).base = a.base ∧
      (from_fn_loop T f i k a).buf.length = a.buf.length ∧
      a.off ≤ (from_fn_loop T f i k a).off := by
  intro k
  induction k with
  | zero => intro i a; exact ⟨rfl, rfl, Nat.le_refl _⟩
  | succ k ih =>
    intro i a
    have hmono := alloc_aligned_mono T (f i) a
    rcases halloc : alloc_aligned T (f i) a with ⟨a1, r⟩
    rw [halloc] at hmono
    simp only at hmono
    cases r with
    | ok v =>
      have := ih (i + 1) a1
      simp only [from_fn_loop, halloc]
      exact ⟨this.1.trans hmono.1, this.2.1.trans hmono.2.1,
        hmono.2.2.1.trans this.2.2⟩
    | err e =>
      have := ih (i + 1) { a1 with ub := true }
      simp only [from_fn_loop, halloc]
      exact ⟨this.1.trans hmono.1, this.2.1.trans hmono.2.1,
        hmono.2.2.1.trans this.2.2⟩

lemma waste_mem_mono (T : Ty) (a : ArenaSt) :
    (waste_mem T a).1.base = a.base ∧
    (waste_mem T a).1.buf.length = a.buf.length ∧
    a.off ≤ (waste_mem T a).1.off := by
  by_cases h : remLen a < calc_waste_bytes T a
  · rw [waste_mem_of_lt T a h]
    exact ⟨rfl, rfl, Nat.le_refl _⟩
  · rw [waste_mem_of_ge T a h]
    exact ⟨rfl, rfl, by simp⟩

lemma alloc_mono (T : Ty) (item : Nat → Nat) (a : ArenaSt) :
    (alloc T item a).1.base = a.base ∧
    (alloc T item a).1.buf.length = a.buf.length ∧
    a.off ≤ (alloc T item a).1.off := by
  have hw := waste_mem_mono T a
  unfold alloc
  rcases hwm : waste_mem T a with ⟨a1, r⟩
  rw [hwm] at hw
  simp only at hw
  cases r with
  | ok v =>
    have ha := alloc_aligned_mono T item a1
    exact ⟨ha.1.trans hw.1, ha.2.1.trans hw.2.1, hw.2.2.trans ha.2.2.1⟩
  | err e => exact ⟨hw.1, hw.2.1, hw.2.2⟩

lemma alloc_from_fn_mono (T : Ty) (n : Nat) (f : Nat → Nat → Nat) (a : ArenaSt) :
    (alloc_from_fn T n f a).1.base = a.base ∧
    (alloc_from_fn T n f a).1.buf.length = a.buf.length ∧
    a.off ≤ (alloc_from_fn T n f a).1.off := by
  have hw := waste_mem_mono T a
  unfold alloc_from_fn
  rcases hwm : waste_mem T a with ⟨a1, r⟩
  rw [hwm] at hw
  simp only at hw
  cases r with
  | ok v =>
    have hl := from_fn_loop_mono T f n 0 a1
    exact ⟨hl.1.trans hw.1, hl.2.1.trans hw.2.1, hw.2.2.trans hl.2.2⟩
  | err e => exact ⟨hw.1, hw.2.1, hw.2.2⟩

lemma runOp_mono (op : Op) (a : ArenaSt) :
    (runOp op a).base = a.base ∧
    (runOp op a).buf.length = a.buf.length ∧
    a.off ≤ (runOp op a).off := by
  cases op with
  | single T item => exact alloc_mono T item a
  | fromFn T n f => exact alloc_from_fn_mono T n f a

/-! ### Full specification of the array-write loop -/

lemma from_fn_loop_succ_ok (T : Ty) (f : Nat → Nat → Nat) (i k : Nat) (a : ArenaSt)
    (h : ¬ remLen a < T.size) :
    from_fn_loop T f i (k + 1) a =
      from_fn_loop T f (i + 1) k
        { a with off := a.off + T.size,
                 buf := writeBytes a.buf a.off (reprBytes T (f i)) } := by
  simp only [from_fn_loop, alloc_aligned_of_ge T (f i) a h]

lemma from_fn_loop_spec (T : Ty) (f : Nat → Nat → Nat) :
    ∀ (k i : Nat) (a : ArenaSt),
      a.off ≤ a.buf.length →
      a.off + k * T.size ≤ a.buf.length →
      (from_fn_loop T f i k a).off = a.off + k * T.size ∧
      (from_fn_loop T f i k a).buf.length = a.buf.length ∧
      (from_fn_loop T f i k a).base = a.base ∧
      (from_fn_loop T f i k a).ub = a.ub ∧
      (∀ p, p < a.off → (from_fn_loop T f i k a).buf[p]? = a.buf[p]?) ∧
      (∀ j, j < k →
        ((from_fn_loop T f i k a).buf.drop (a.off + j * T.size)).take T.size
          = reprBytes T (f (i + j))) := by
  intro k
  induction k with
  | zero =>
    intro i a _ _
    refine ⟨by simp [from_fn_loop], rfl, rfl, rfl, fun p _ => rfl, fun j hj => absurd hj (by omega)⟩
  | succ k ih =>
    intro i a hwf hfit
    rw [Nat.succ_mul] at hfit
    have hge : ¬ remLen a < T.size := by simp only [remLen]; omega
    rw [from_fn_loop_succ_ok T f i k a hge]
    have hblen : (writeBytes a.buf a.off (reprBytes T (f i))).length = a.buf.length :=
      writeBytes_length _ _ _ (by rw [reprBytes_length]; omega)
    obtain ⟨hoff, hlen, hbase, hub, hpre, helem⟩ :=
      ih (i + 1)
        { a with off := a.off + T.size,
                 buf := writeBytes a.buf a.off (reprBytes T (f i)) }
        (by simp only; rw [hblen]; omega)
        (by simp only; rw [hblen]; omega)
    simp only at hoff hlen hbase hub hpre helem
    rw [hblen] at hlen
    refine ⟨by rw [hoff, Nat.succ_mul]; omega, hlen, hbase, hub, ?_, ?_⟩
    · intro p hp
      rw [hpre p (by omega)]
      exact writeBytes_getElem_lt a.buf _ a.off p hp hwf
    · intro j hj
      match j with
      | 0 =>
        have hread := writeBytes_readback a.buf (reprBytes T (f i)) a.off hwf
        rw [reprBytes_length] at hread
        have hagree : ∀ p, p < a.off + T.size →
            (from_fn_loop T f (i + 1) k
              { a with off := a.off + T.size,
                       buf := writeBytes a.buf a.off (reprBytes T (f i)) }).buf[p]?
              = (writeBytes a.buf a.off (reprBytes T (f i)))[p]? := by
          intro p hp
          exact hpre p hp
        have := slice_eq_of_agree _ _ a.off T.size hagree
        simp only [Nat.zero_mul, Nat.add_zero]
        rw [this, hread]
      | j' + 1 =>
        have hj' : j' < k := by omega
        have hidx : a.off + (j' + 1) * T.size = a.off + T.size + j' * T.size := by
          rw [Nat.succ_mul]; omega
        have hfun : i + (j' + 1) = i + 1 + j' := by omega
        rw [hidx, hfun]
        exact helem j' hj'

-- Sanity checks against the Rust test-suite scenarios.
example :
    (allocSeq [(⟨1, 1⟩, fun _ => 1), (⟨1, 1⟩, fun _ => 2), (⟨1, 1⟩, fun _ => 3)]
      (Alloc.new 0 [0, 0, 0, 0])).buf = [1, 2, 3, 0] := by decide

example :
    (alloc_from_fn ⟨1, 1⟩ 4 (fun i _ => i + 1) (Alloc.new 0 [0, 0, 0, 0, 0, 0, 0, 0])).1.buf
      = [1, 2, 3, 4, 0, 0, 0, 0] := by decide

example :
    (alloc ⟨4, 4⟩ (fun _ => 9) ((alloc ⟨1, 1⟩ (fun _ => 1) (Alloc.new 0 [0, 0, 0, 0])).1)).2
      = .err OutOfMemory.mk := by decide

/-! ### Claim theorems -/

/-- Claim C1: for every type `T` and allocator state, `alloc` fails with
Out-Of-Memory exactly when the remaining view is shorter than the computed
alignment padding, or the view left after consuming that padding is shorter
than `size_of T`; in every other case it succeeds and returns a reference to
the value written at the carved position. -/
theorem alloc_oom_iff (T : Ty) (item : Nat → Nat) (a : ArenaSt)
    (hwf : a.off ≤ a.buf.length) :
    ((alloc T item a).2 = .err OutOfMemory.mk ↔
      remLen a < calc_waste_bytes T a ∨
        remLen a - calc_waste_bytes T a < T.size) ∧
    (¬ (remLen a < calc_waste_bytes T a ∨
          remLen a - calc_waste_bytes T a < T.size) →
      (alloc T item a).2 = .ok (remStart a + calc_waste_bytes T a) ∧
      ((alloc T item a).1.buf.drop
          (a.off + calc_waste_bytes T a)).take T.size = reprBytes T item) := by
  by_cases h1 : remLen a < calc_waste_bytes T a
  · rw [alloc_of_waste_lt T item a h1]
    exact ⟨by simp [h1], fun hc => absurd (Or.inl h1) hc⟩
  · by_cases h2 : remLen a - calc_waste_bytes T a < T.size
    · rw [alloc_of_size_lt T item a h1 h2]
      exact ⟨by simp [h2], fun hc => absurd (Or.inr h2) hc⟩
    · rw [alloc_of_ok T item a h1 h2]
      refine ⟨by simp [h1, h2], fun _ => ⟨by simp [remStart, Nat.add_assoc], ?_⟩⟩
      simp only
      have hread := writeBytes_readback a.buf (reprBytes T item)
        (a.off + calc_waste_bytes T a)
        (by simp only [remLen] at h1; omega)
      rw [reprBytes_length] at hread
      exact hread

theorem alloc_oom_iff_witness :
    (alloc ⟨2, 2⟩ (fun j => j + 5) (Alloc.new 1 [0, 0, 0, 0])).2
        = .ok (remStart (Alloc.new 1 [0, 0, 0, 0]) +
            calc_waste_bytes ⟨2, 2⟩ (Alloc.new 1 [0, 0, 0, 0])) ∧
    ((alloc ⟨2, 2⟩ (fun j => j + 5) (Alloc.new 1 [0, 0, 0, 0])).1.buf.drop
        ((Alloc.new 1 [0, 0, 0, 0]).off +
          calc_waste_bytes ⟨2, 2⟩ (Alloc.new 1 [0, 0, 0, 0]))).take (Ty.mk 2 2).size
      = reprBytes ⟨2, 2⟩ (fun j => j + 5) :=
  (alloc_oom_iff ⟨2, 2⟩ (fun j => j + 5) (Alloc.new 1 [0, 0, 0, 0])
    (by decide)).2 (by decide)

/-- Claim C2: the number of padding bytes consumed before an allocation is
`(start address of the current remaining view) % align_of T` — computed from
the view's start address, not from the original buffer's base address. -/
theorem padding_from_view_start (T : Ty) (a : ArenaSt) :
    calc_waste_bytes T a = remStart a % T.align ∧
    (∀ a1 w, waste_mem T a = (a1, .ok w) →
      w = remStart a % T.align ∧ a1.off = a.off + w ∧
        a1.buf = a.buf ∧ a1.base = a.base) ∧
    ¬ (∀ (S : Ty) (b : ArenaSt), calc_waste_bytes S b = b.base % S.align) := by
  refine ⟨rfl, ?_, ?_⟩
  · intro a1 w h
    by_cases hlt : remLen a < calc_waste_bytes T a
    · rw [waste_mem_of_lt T a hlt] at h
      exact absurd (congrArg Prod.snd h) (by simp)
    · rw [waste_mem_of_ge T a hlt] at h
      injection h with hA hB
      injection hB with hw
      subst hA
      subst hw
      exact ⟨rfl, rfl, rfl, rfl⟩
  · intro hall
    exact absurd (hall ⟨1, 2⟩ ⟨0, [], 1, false⟩) (by decide)

theorem padding_from_view_start_witness :
    (1 : Nat) = remStart (Alloc.new 1 [0, 0]) % (Ty.mk 1 2).align ∧
    (⟨1, [0, 0], 1, false⟩ : ArenaSt).off = (Alloc.new 1 [0, 0]).off + 1 ∧
    (⟨1, [0, 0], 1, false⟩ : ArenaSt).buf = (Alloc.new 1 [0, 0]).buf ∧
    (⟨1, [0, 0], 1, false⟩ : ArenaSt).base = (Alloc.new 1 [0, 0]).base :=
  (padding_from_view_start ⟨1, 2⟩ (Alloc.new 1 [0, 0])).2.1
    ⟨1, [0, 0], 1, false⟩ 1 (by decide)

/-- Claim C3: when `alloc` fails at the size check (the padding fit but
`size_of T` does not), the state has its cursor advanced by exactly the
padding and nothing else changed: the padding is not rolled back, no size
bytes are reserved, and no value data is written into the buffer. -/
theorem size_fail_keeps_padding (T : Ty) (item : Nat → Nat) (a : ArenaSt)
    (h1 : calc_waste_bytes T a ≤ remLen a)
    (h2 : remLen a - calc_waste_bytes T a < T.size) :
    alloc T item a =
      ({ a with off := a.off + calc_waste_bytes T a }, .err OutOfMemory.mk) :=
  alloc_of_size_lt T item a (by omega) h2

theorem size_fail_keeps_padding_witness :
    alloc ⟨4, 2⟩ (fun _ => 7) (Alloc.new 1 [0, 0, 0]) =
      ({ Alloc.new 1 [0, 0, 0] with
          off := (Alloc.new 1 [0, 0, 0]).off +
            calc_waste_bytes ⟨4, 2⟩ (Alloc.new 1 [0, 0, 0]) },
        .err OutOfMemory.mk) :=
  size_fail_keeps_padding ⟨4, 2⟩ (fun _ => 7) (Alloc.new 1 [0, 0, 0])
    (by decide) (by decide)

/-- Claim C4: over every sequence of operations (`alloc` or `alloc_from_fn`,
succeeding or failing), the remaining view stays a suffix of the original
buffer: the base address and buffer length are fixed, the cursor only
increases or stays equal, and the view's length never increases. -/
theorem remaining_view_suffix (ops : List Op) (a : ArenaSt) :
    (runOps ops a).base = a.base ∧
    (runOps ops a).buf.length = a.buf.length ∧
    a.off ≤ (runOps ops a).off ∧
    remLen (runOps ops a) ≤ remLen a := by
  induction ops generalizing a with
  | nil => exact ⟨rfl, rfl, Nat.le_refl _, Nat.le_refl _⟩
  | cons op rest ih =>
    have h1 := runOp_mono op a
    have h2 := ih (runOp op a)
    simp only [runOps]
    refine ⟨h2.1.trans h1.1, h2.2.1.trans h1.2.1, h1.2.2.trans h2.2.2.1, ?_⟩
    refine h2.2.2.2.trans ?_
    have ha := h1.2.1
    have hb := h1.2.2
    simp only [remLen]
    omega

/-- Claim C5 (code bug): the spec promises that for alignment `A > 1` a
successful `alloc` returns an address that is a multiple of `A`, but
`calc_waste_bytes` computes the padding as `addr % A` instead of
`(A - addr % A) % A`. From base address 1, allocating a type of size 4 and
alignment 4 succeeds and returns address 2, which is not a multiple of 4. -/
theorem alloc_misaligned_counterexample :
    (alloc ⟨4, 4⟩ (fun _ => 9) (Alloc.new 1 (List.replicate 8 0))).2
        = RustResult.ok 2 ∧
    ¬ (4 ∣ 2) := by decide

/-- Claim C6: over every sequence of successful single-value allocations, the
cursor advances by exactly the sum of each allocation's (padding + size), and
the remaining view's length afterwards equals the original length minus that
sum (the sum never exceeds the original remaining length). -/
theorem total_consumed (l : List (Ty × (Nat → Nat))) (a : ArenaSt)
    (hwf : a.off ≤ a.buf.length) (hok : allocSeqOk l a = true) :
    (allocSeq l a).off = a.off + consumedSum l a ∧
    (allocSeq l a).buf.length = a.buf.length ∧
    consumedSum l a ≤ remLen a ∧
    remLen (allocSeq l a) = remLen a - consumedSum l a := by
  induction l generalizing a with
  | nil => simp [allocSeq, consumedSum]
  | cons ti rest ih =>
    obtain ⟨T, it⟩ := ti
    by_cases h1 : remLen a < calc_waste_bytes T a
    · exfalso
      simp only [allocSeqOk, alloc_of_waste_lt T it a h1] at hok
      simp at hok
    · by_cases h2 : remLen a - calc_waste_bytes T a < T.size
      · exfalso
        simp only [allocSeqOk, alloc_of_size_lt T it a h1 h2] at hok
        simp at hok
      · have hL : remLen a = a.buf.length - a.off := rfl
        have hlen1 :
            (writeBytes a.buf (a.off + calc_waste_bytes T a)
              (reprBytes T it)).length = a.buf.length := by
          apply writeBytes_length
          rw [reprBytes_length]
          simp only [remLen] at h1 h2
          omega
        simp only [allocSeqOk, alloc_of_ok T it a h1 h2] at hok
        simp only [Bool.and_eq_true] at hok
        have hok2 := hok.2
        simp only [allocSeq, consumedSum, alloc_of_ok T it a h1 h2]
        obtain ⟨ih1, ih2, ih3, ih4⟩ :=
          ih { a with off := a.off + calc_waste_bytes T a + T.size,
                      buf := writeBytes a.buf (a.off + calc_waste_bytes T a)
                        (reprBytes T it) }
            (by simp only; rw [hlen1]; simp only [remLen] at h1 h2; omega)
            hok2
        simp only at ih1 ih2 ih3 ih4
        rw [hlen1] at ih2
        simp only [remLen, hlen1] at ih3 ih4 ⊢
        simp only [remLen] at h1 h2
        omega

theorem total_consumed_witness :
    (allocSeq [(⟨1, 1⟩, fun _ => 1), (⟨2, 2⟩, fun _ => 2)] (Alloc.new 0 [0, 0, 0, 0])).off
        = (Alloc.new 0 [0, 0, 0, 0]).off +
          consumedSum [(⟨1, 1⟩, fun _ => 1), (⟨2, 2⟩, fun _ => 2)] (Alloc.new 0 [0, 0, 0, 0]) ∧
    (allocSeq [(⟨1, 1⟩, fun _ => 1), (⟨2, 2⟩, fun _ => 2)] (Alloc.new 0 [0, 0, 0, 0])).buf.length
        = (Alloc.new 0 [0, 0, 0, 0]).buf.length ∧
    consumedSum [(⟨1, 1⟩, fun _ => 1), (⟨2, 2⟩, fun _ => 2)] (Alloc.new 0 [0, 0, 0, 0])
        ≤ remLen (Alloc.new 0 [0, 0, 0, 0]) ∧
    remLen (allocSeq [(⟨1, 1⟩, fun _ => 1), (⟨2, 2⟩, fun _ => 2)] (Alloc.new 0 [0, 0, 0, 0]))
        = remLen (Alloc.new 0 [0, 0, 0, 0]) -
          consumedSum [(⟨1, 1⟩, fun _ => 1), (⟨2, 2⟩, fun _ => 2)] (Alloc.new 0 [0, 0, 0, 0]) :=
  total_consumed [(⟨1, 1⟩, fun _ => 1), (⟨2, 2⟩, fun _ => 2)] (Alloc.new 0 [0, 0, 0, 0])
    (by decide) (by decide)

/-- Claim C7: a successful `alloc_from_fn` with count `n` and generator `f`
performs the alignment-padding step exactly once — the cursor advances by
padding + n·size in total — and writes `f 0, f 1, …, f (n-1)` into
consecutive `size_of T`-sized slots with no inter-element padding, returning
a reference to the start of those `n` contiguous elements. -/
theorem alloc_from_fn_contiguous (T : Ty) (n : Nat) (f : Nat → Nat → Nat)
    (a : ArenaSt) (hwf : a.off ≤ a.buf.length)
    (hfit : calc_waste_bytes T a + n * T.size ≤ remLen a) :
    (alloc_from_fn T n f a).2
        = .ok (remStart a + calc_waste_bytes T a, n) ∧
    (alloc_from_fn T n f a).1.off
        = a.off + calc_waste_bytes T a + n * T.size ∧
    (alloc_from_fn T n f a).1.buf.length = a.buf.length ∧
    (alloc_from_fn T n f a).1.ub = a.ub ∧
    (∀ j, j < n →
      ((alloc_from_fn T n f a).1.buf.drop
          (a.off + calc_waste_bytes T a + j * T.size)).take T.size
        = reprBytes T (f j)) := by
  have h1 : ¬ remLen a < calc_waste_bytes T a := by omega
  unfold alloc_from_fn
  rw [waste_mem_of_ge T a h1]
  simp only
  obtain ⟨hoff, hlen, hbase, hub, hpre, helem⟩ :=
    from_fn_loop_spec T f n 0 { a with off := a.off + calc_waste_bytes T a }
      (by simp only; simp only [remLen] at h1; omega)
      (by simp only; simp only [remLen] at hfit; omega)
  simp only at hoff hlen hbase hub hpre helem
  refine ⟨by simp [remStart, Nat.add_assoc], by rw [hoff], hlen, hub, ?_⟩
  intro j hj
  have := helem j hj
  simpa using this

theorem alloc_from_fn_contiguous_witness :
    (alloc_from_fn ⟨1, 1⟩ 2 (fun i _ => i + 1) (Alloc.new 0 [0, 0, 0])).2
        = .ok (remStart (Alloc.new 0 [0, 0, 0]) +
            calc_waste_bytes ⟨1, 1⟩ (Alloc.new 0 [0, 0, 0]), 2) ∧
    ((alloc_from_fn ⟨1, 1⟩ 2 (fun i _ => i + 1) (Alloc.new 0 [0, 0, 0])).1.buf.drop
        ((Alloc.new 0 [0, 0, 0]).off +
          calc_waste_bytes ⟨1, 1⟩ (Alloc.new 0 [0, 0, 0]) +
          1 * (Ty.mk 1 1).size)).take (Ty.mk 1 1).size
      = reprBytes ⟨1, 1⟩ ((fun i _ => i + 1) 1) := by
  have h := alloc_from_fn_contiguous ⟨1, 1⟩ 2 (fun i _ => i + 1)
    (Alloc.new 0 [0, 0, 0]) (by decide) (by decide)
  exact ⟨h.1, h.2.2.2.2 1 (by decide)⟩

/-- Claim C8: `alloc_from_fn` returns Out-Of-Memory exactly when the initial
pre-loop padding check fails — in which case the state is untouched, so no
element was written; an out-of-memory arising mid-loop is not propagated (the
call still returns `ok`) and is an unchecked condition, recorded by the `ub`
flag, as the concrete run over a 1-byte buffer with count 3 shows. -/
theorem alloc_from_fn_err_iff (T : Ty) (n : Nat) (f : Nat → Nat → Nat)
    (a : ArenaSt) :
    ((alloc_from_fn T n f a).2 = .err OutOfMemory.mk ↔
      remLen a < calc_waste_bytes T a) ∧
    ((alloc_from_fn T n f a).2 = .err OutOfMemory.mk →
      (alloc_from_fn T n f a).1 = a) ∧
    ((alloc_from_fn ⟨1, 1⟩ 3 (fun i _ => i) (Alloc.new 0 [0])).2 = .ok (0, 3) ∧
      (alloc_from_fn ⟨1, 1⟩ 3 (fun i _ => i) (Alloc.new 0 [0])).1.ub = true) := by
  refine ⟨?_, ?_, by decide⟩ <;> by_cases h : remLen a < calc_waste_bytes T a
  · unfold alloc_from_fn
    rw [waste_mem_of_lt T a h]
    simp [h]
  · unfold alloc_from_fn
    rw [waste_mem_of_ge T a h]
    simp [h]
  · unfold alloc_from_fn
    rw [waste_mem_of_lt T a h]
    intro _
    rfl
  · unfold alloc_from_fn
    rw [waste_mem_of_ge T a h]
    simp

theorem alloc_from_fn_err_iff_witness :
    (alloc_from_fn ⟨1, 4⟩ 0 (fun _ _ => 0) (Alloc.new 1 [])).1 = Alloc.new 1 [] :=
  (alloc_from_fn_err_iff ⟨1, 4⟩ 0 (fun _ _ => 0) (Alloc.new 1 [])).2.1 (by decide)

/-- Claim C9: a failed allocation never writes value data into the buffer —
a failing `alloc` leaves the buffer contents unchanged, a failing
`alloc_from_fn` leaves the whole state unchanged, and a failing
`alloc_aligned` (the per-element write path) leaves the whole state
unchanged — and a failed call returns no reference at all (`err` carries
none), while a successful `alloc` hands out a region lying entirely before
the new remaining view, so it can never be handed out again. -/
theorem failed_alloc_no_write (T : Ty) (item : Nat → Nat) (n : Nat)
    (f : Nat → Nat → Nat) (a : ArenaSt) :
    (∀ e, (alloc T item a).2 = .err e → (alloc T item a).1.buf = a.buf) ∧
    (∀ e, (alloc_from_fn T n f a).2 = .err e → (alloc_from_fn T n f a).1 = a) ∧
    (∀ e, (alloc_aligned T item a).2 = .err e → (alloc_aligned T item a).1 = a) ∧
    (∀ a2 addr, alloc T item a = (a2, .ok addr) →
      addr + T.size ≤ a2.base + a2.off) := by
  refine ⟨?_, ?_, ?_, ?_⟩
  · intro e hc
    by_cases h1 : remLen a < calc_waste_bytes T a
    · rw [alloc_of_waste_lt T item a h1]
    · by_cases h2 : remLen a - calc_waste_bytes T a < T.size
      · rw [alloc_of_size_lt T item a h1 h2]
      · rw [alloc_of_ok T item a h1 h2] at hc
        exact absurd hc (by simp)
  · intro e
    by_cases h : remLen a < calc_waste_bytes T a
    · unfold alloc_from_fn
      rw [waste_mem_of_lt T a h]
      intro _
      rfl
    · unfold alloc_from_fn
      rw [waste_mem_of_ge T a h]
      simp
  · intro e
    by_cases h : remLen a < T.size
    · rw [alloc_aligned_of_lt T item a h]
      intro _
      rfl
    · rw [alloc_aligned_of_ge T item a h]
      simp
  · intro a2 addr h
    by_cases h1 : remLen a < calc_waste_bytes T a
    · rw [alloc_of_waste_lt T item a h1] at h
      exact absurd (congrArg Prod.snd h) (by simp)
    · by_cases h2 : remLen a - calc_waste_bytes T a < T.size
      · rw [alloc_of_size_lt T item a h1 h2] at h
        exact absurd (congrArg Prod.snd h) (by simp)
      · rw [alloc_of_ok T item a h1 h2] at h
        injection h with hA hB
        injection hB with hv
        subst hA
        subst hv
        simp only
        omega

theorem failed_alloc_no_write_witness :
    (alloc ⟨5, 1⟩ (fun _ => 1) (Alloc.new 0 [0, 0])).1.buf
        = (Alloc.new 0 [0, 0]).buf ∧
    2 + (Ty.mk 2 1).size ≤
      (⟨2, [3, 3, 0], 2, false⟩ : ArenaSt).base +
        (⟨2, [3, 3, 0], 2, false⟩ : ArenaSt).off := by
  constructor
  · exact (failed_alloc_no_write ⟨5, 1⟩ (fun _ => 1) 1 (fun _ _ => 2)
      (Alloc.new 0 [0, 0])).1 OutOfMemory.mk (by decide)
  · exact (failed_alloc_no_write ⟨2, 1⟩ (fun _ => 3) 1 (fun _ _ => 2)
      (Alloc.new 2 [0, 0, 0])).2.2.2 ⟨2, [3, 3, 0], 2, false⟩ 2 (by decide)

/-- Claim C10: `alloc_from_fn` with count 0 succeeds whenever the remaining
view is at least as long as the alignment padding: it consumes exactly the
padding bytes (buffer contents untouched, nothing written) and returns a
reference to an empty sequence at the aligned-by-the-code position. -/
theorem alloc_from_fn_zero (T : Ty) (f : Nat → Nat → Nat) (a : ArenaSt)
    (h : calc_waste_bytes T a ≤ remLen a) :
    alloc_from_fn T 0 f a =
      ({ a with off := a.off + calc_waste_bytes T a },
        .ok (remStart a + calc_waste_bytes T a, 0)) := by
  unfold alloc_from_fn
  rw [waste_mem_of_ge T a (by omega)]
  simp only [from_fn_loop]
  simp [remStart, Nat.add_assoc]

theorem alloc_from_fn_zero_witness :
    alloc_from_fn ⟨3, 2⟩ 0 (fun _ _ => 4) (Alloc.new 1 [0, 0]) =
      ({ Alloc.new 1 [0, 0] with
          off := (Alloc.new 1 [0, 0]).off +
            calc_waste_bytes ⟨3, 2⟩ (Alloc.new 1 [0, 0]) },
        .ok (remStart (Alloc.new 1 [0, 0]) +
          calc_waste_bytes ⟨3, 2⟩ (Alloc.new 1 [0, 0]), 0)) :=
  alloc_from_fn_zero ⟨3, 2⟩ (fun _ _ => 4) (Alloc.new 1 [0, 0]) (by decide)
